import Mathlib

/-!
# Verification of the Gnomo DEX quote and price-history engine

Shallow embedding of the TypeScript source of the Gnomo trading interface:

* `frontend/lib/clmm.ts` — tick/price conversion (`tickToPrice`, `priceToTick`);
* the Home page component — CLMM position decomposition, best-quote route
  selection (`updateQuote`), minimum-received derivation (`handleSwap`);
* `frontend/lib/priceHistory.ts` — the price-history store
  (`recordPrice`, `cleanupOldData`, `getPriceStats`).

JavaScript `number` arithmetic on finite values is idealized as exact real
arithmetic; the non-finite values `NaN`, `Infinity` and `-Infinity` that the
source can produce are modelled explicitly by the `JSNum` wrapper.  BigInt
arithmetic is modelled by `ℤ`/`ℕ`, and price-history float arithmetic by `ℚ`
so that states evaluate.
-/

namespace Gnomo

/-! ## JS number wrapper

A JavaScript `number` is either `NaN`, one of the two infinities, or a finite
value (idealized here as a real number). -/

inductive JSNum where
  | nan : JSNum
  | negInf : JSNum
  | posInf : JSNum
  | fin : ℝ → JSNum

open Classical in
/-- JS `Math.log`: `NaN` on negative input, `-Infinity` at `0`,
the real logarithm on positive input. -/
noncomputable def jsLog (x : ℝ) : JSNum :=
  if x < 0 then .nan else if x = 0 then .negInf else .fin (Real.log x)

/-- Division of a JS number by a positive finite constant: `NaN` and the
infinities are preserved, a finite value is divided. -/
noncomputable def jsDivPos (v : JSNum) (c : ℝ) : JSNum :=
  match v with
  | .nan => .nan
  | .negInf => .negInf
  | .posInf => .posInf
  | .fin x => .fin (x / c)

/-- JS `Math.round`: `NaN` and the infinities are preserved, a finite value is
rounded half towards `+∞` (`Math.round x = ⌊x + 1/2⌋`, which is Mathlib's
`round`). -/
noncomputable def jsRound (v : JSNum) : JSNum :=
  match v with
  | .nan => .nan
  | .negInf => .negInf
  | .posInf => .posInf
  | .fin x => .fin ((round x : ℤ) : ℝ)

/-! ## Tick / price conversion (`frontend/lib/clmm.ts`, lines 288–294)

```ts
export function tickToPrice(tick: number, basePrice: number = 1): number {
  return basePrice * Math.pow(1.01, tick)
}
export function priceToTick(price: number, basePrice: number = 1): number {
  return Math.round(Math.log(price / basePrice) / Math.log(1.01))
}
```
-/

/-- `tickToPrice(tick, basePrice)` from `clmm.ts`: the tick is a JS number, so
`Math.pow(1.01, tick)` is real exponentiation (`rpow`). -/
noncomputable def tickToPrice (tick : ℝ) (basePrice : ℝ) : ℝ :=
  basePrice * (1.01 : ℝ) ^ tick

/-- `priceToTick(price, basePrice)` from `clmm.ts`, with the JS semantics of
`Math.log` / `Math.round` on non-positive arguments made explicit. -/
noncomputable def priceToTickJS (price : ℝ) (basePrice : ℝ) : JSNum :=
  jsRound (jsDivPos (jsLog (price / basePrice)) (Real.log 1.01))

/-- The integer tick `priceToTick` produces on a positive price. -/
noncomputable def priceToTickInt (price : ℝ) (basePrice : ℝ) : ℤ :=
  round (Real.log (price / basePrice) / Real.log 1.01)

lemma one_lt_base : (1 : ℝ) < 1.01 := by norm_num

lemma log_base_pos : 0 < Real.log 1.01 := Real.log_pos one_lt_base

lemma priceToTickJS_of_pos {price basePrice : ℝ} (hp : 0 < price)
    (hb : 0 < basePrice) :
    priceToTickJS price basePrice = .fin ((priceToTickInt price basePrice : ℤ) : ℝ) := by
  have hq : 0 < price / basePrice := div_pos hp hb
  unfold priceToTickJS jsLog
  rw [if_neg (not_lt.mpr hq.le), if_neg hq.ne']
  rfl

lemma priceToTickInt_tickToPrice (t : ℤ) :
    priceToTickInt (tickToPrice (t : ℝ) 1) 1 = t := by
  unfold priceToTickInt tickToPrice
  rw [div_one, one_mul, Real.log_rpow (by norm_num : (0:ℝ) < 1.01),
    mul_div_assoc, div_self log_base_pos.ne', mul_one, round_intCast]

lemma tickToPrice_pos (t : ℝ) : 0 < tickToPrice t 1 := by
  unfold tickToPrice
  rw [one_mul]
  exact Real.rpow_pos_of_pos (by norm_num) t

/-- **C4.** `tickToPrice(tick, basePrice)` computes `basePrice * 1.01 ^ tick`
(integer power), and for positive `price` and `basePrice`,
`priceToTick(price, basePrice)` computes
`round(ln(price / basePrice) / ln 1.01)`. -/
theorem tick_price_conversion_formulas :
    (∀ (tick : ℤ) (basePrice : ℝ),
      tickToPrice (tick : ℝ) basePrice = basePrice * (1.01 : ℝ) ^ tick) ∧
    (∀ price basePrice : ℝ, 0 < price → 0 < basePrice →
      priceToTickJS price basePrice =
        .fin ((round (Real.log (price / basePrice) / Real.log 1.01) : ℤ) : ℝ)) := by
  constructor
  · intro tick basePrice
    unfold tickToPrice
    rw [Real.rpow_intCast]
  · intro price basePrice hp hb
    exact priceToTickJS_of_pos hp hb

/-- Witness for C4 at `tick = 3`, `basePrice = 2` and `price = 1`,
`basePrice = 1`. -/
theorem tick_price_conversion_formulas_witness :
    tickToPrice ((3 : ℤ) : ℝ) 2 = 2 * (1.01 : ℝ) ^ (3 : ℤ) ∧
    priceToTickJS 1 1 =
      .fin ((round (Real.log ((1 : ℝ) / 1) / Real.log 1.01) : ℤ) : ℝ) :=
  ⟨tick_price_conversion_formulas.1 3 2,
   tick_price_conversion_formulas.2 1 1 one_pos one_pos⟩

/-- **C7.** For every tick `t`, converting `tickToPrice t` back with
`priceToTick` yields an integer tick `t2` with
`tickToPrice t2 = tickToPrice t`: the price is stable after one round-trip. -/
theorem tick_roundtrip_price_stable (t : ℤ) :
    ∃ t2 : ℤ, priceToTickJS (tickToPrice (t : ℝ) 1) 1 = .fin ((t2 : ℤ) : ℝ) ∧
      tickToPrice ((t2 : ℤ) : ℝ) 1 = tickToPrice (t : ℝ) 1 := by
  refine ⟨t, ?_, rfl⟩
  rw [priceToTickJS_of_pos (tickToPrice_pos _) one_pos,
    priceToTickInt_tickToPrice]

/-- **C2 counterexample.** The code's conversions signal no error at all:
at the invalid price `-1`, `priceToTick` returns `NaN`; at price `0` it
returns `-Infinity`; at the valid price `1` it returns the finite tick `0` —
there is no `InvalidPrice` failure, and `priceToTick` of any positive price
returns a plain tick with no `TickOutOfRange` report. -/
theorem tick_conversion_counterexample :
    priceToTickJS (-1) 1 = JSNum.nan ∧
    priceToTickJS 0 1 = JSNum.negInf ∧
    priceToTickJS 1 1 = .fin ((0 : ℤ) : ℝ) := by
  refine ⟨?_, ?_, ?_⟩
  · unfold priceToTickJS jsLog
    rw [div_one, if_pos (by norm_num : (-1 : ℝ) < 0)]
    rfl
  · unfold priceToTickJS jsLog
    rw [div_one, if_neg (lt_irrefl (0 : ℝ)), if_pos rfl]
    rfl
  · rw [priceToTickJS_of_pos one_pos one_pos]
    unfold priceToTickInt
    rw [div_one, Real.log_one, zero_div, round_zero]

/-- **C2 amended.** `tickToPrice` and `priceToTick` perform no validation and
define no error kinds: for `price < 0` the conversion returns `NaN`, at
`price = 0` it returns `-Infinity` (rather than failing with `InvalidPrice`);
every integer tick is accepted, `tickToPrice` returning `basePrice * 1.01^t`
with no `[-MAX_TICK, MAX_TICK]` bound, and every positive price yields a
finite tick with no `TickOutOfRange` report. -/
theorem tick_conversion_no_validation :
    (∀ p : ℝ, p < 0 → priceToTickJS p 1 = JSNum.nan) ∧
    priceToTickJS 0 1 = JSNum.negInf ∧
    (∀ t : ℤ, tickToPrice (t : ℝ) 1 = (1.01 : ℝ) ^ t) ∧
    (∀ p : ℝ, 0 < p → ∃ t : ℤ, priceToTickJS p 1 = .fin ((t : ℤ) : ℝ)) := by
  refine ⟨?_, ?_, ?_, ?_⟩
  · intro p hp
    unfold priceToTickJS jsLog
    rw [div_one, if_pos hp]
    rfl
  · unfold priceToTickJS jsLog
    rw [div_one, if_neg (lt_irrefl (0 : ℝ)), if_pos rfl]
    rfl
  · intro t
    unfold tickToPrice
    rw [one_mul, Real.rpow_intCast]
  · intro p hp
    exact ⟨priceToTickInt p 1, priceToTickJS_of_pos hp one_pos⟩

/-- Witness for the amended C2 at `p = -1` and `p = 1`. -/
theorem tick_conversion_no_validation_witness :
    priceToTickJS (-1) 1 = JSNum.nan ∧
    (∃ t : ℤ, priceToTickJS 1 1 = .fin ((t : ℤ) : ℝ)) :=
  ⟨tick_conversion_no_validation.1 (-1) (by norm_num),
   tick_conversion_no_validation.2.2.2 1 one_pos⟩

/-! ## CLMM position decomposition (Home component, positions tab)

```ts
let amountA = 0, amountB = 0
if (pC <= pL) {
  amountA = liq * (pU - pL) / (pL * pU)
} else if (pC >= pU) {
  amountB = liq * (pU - pL)
} else {
  amountA = liq * (pU - pC) / (pC * pU)
  amountB = liq * (pC - pL)
}
```
where `pL = tickToPrice(tickLower)`, `pU = tickToPrice(tickUpper)`,
`pC = priceX6 / 1e6` and `liq = Number(position.liquidity)`.  The float
arithmetic on the price bounds is idealized as exact rational arithmetic. -/

/-- The position decomposition `(amountA, amountB)` as a function of the
liquidity and the three prices, exactly as computed by the source. -/
def positionAmounts (liq pL pU pC : ℚ) : ℚ × ℚ :=
  if pC ≤ pL then (liq * (pU - pL) / (pL * pU), 0)
  else if pC ≥ pU then (0, liq * (pU - pL))
  else (liq * (pU - pC) / (pC * pU), liq * (pC - pL))

/-- **C1 counterexample.** At `liq = 1`, `priceLower = 1/4`, `priceUpper = 4`,
`currentPrice = 1` (in range), the code computes `amountA = amountB = 3/4`,
while the claimed square-root split would give
`amountA = (√4 - √1) / (√1·√4) = 1/2` and `amountB = √1 - √(1/4) = 1/2`. -/
theorem clmm_position_sqrt_counterexample :
    positionAmounts 1 (1/4) 4 1 = (3/4, 3/4) ∧
    ((3 : ℝ)/4 ≠ 1 * (Real.sqrt 4 - Real.sqrt 1) / (Real.sqrt 1 * Real.sqrt 4)) ∧
    ((3 : ℝ)/4 ≠ 1 * (Real.sqrt 1 - Real.sqrt (1/4))) := by
  have h4 : Real.sqrt 4 = 2 := by
    rw [show (4 : ℝ) = 2 ^ 2 by norm_num, Real.sqrt_sq (by norm_num : (0:ℝ) ≤ 2)]
  have hq : Real.sqrt (1/4) = 1/2 := by
    rw [show (1/4 : ℝ) = (1/2) ^ 2 by norm_num,
      Real.sqrt_sq (by norm_num : (0:ℝ) ≤ 1/2)]
  refine ⟨by norm_num [positionAmounts], ?_, ?_⟩
  · rw [h4, Real.sqrt_one]
    norm_num
  · rw [hq, Real.sqrt_one]
    norm_num

/-- **C1 amended.** The three-region decomposition holds with the code's
linear in-range split (no square roots): below the range the position is all
token A with `amountA = L(pU - pL)/(pL·pU)`, above it all token B with
`amountB = L(pU - pL)`, and in range `amountA = L(pU - p)/(p·pU)`,
`amountB = L(p - pL)`, both strictly positive. -/
theorem clmm_position_decomposition (liq pL pU pC : ℚ)
    (hL : 0 < pL) (hliq : 0 < liq) :
    (pC ≤ pL → positionAmounts liq pL pU pC = (liq * (pU - pL) / (pL * pU), 0)) ∧
    (pU ≤ pC → ¬ pC ≤ pL →
      positionAmounts liq pL pU pC = (0, liq * (pU - pL))) ∧
    (pL < pC → pC < pU →
      positionAmounts liq pL pU pC =
        (liq * (pU - pC) / (pC * pU), liq * (pC - pL)) ∧
      0 < (positionAmounts liq pL pU pC).1 ∧
      0 < (positionAmounts liq pL pU pC).2) := by
  refine ⟨?_, ?_, ?_⟩
  · intro h
    rw [positionAmounts, if_pos h]
  · intro h h2
    rw [positionAmounts, if_neg h2, if_pos h]
  · intro h1 h2
    have heq : positionAmounts liq pL pU pC =
        (liq * (pU - pC) / (pC * pU), liq * (pC - pL)) := by
      rw [positionAmounts, if_neg (not_le.mpr h1), if_neg (not_le.mpr h2)]
    refine ⟨heq, ?_, ?_⟩
    · rw [heq]
      exact div_pos (mul_pos hliq (by linarith)) (mul_pos (by linarith) (by linarith))
    · rw [heq]
      exact mul_pos hliq (by linarith)

/-- Witness for the amended C1 at the spec's example
`priceLower = 1/2`, `priceUpper = 2`, `currentPrice = 1`, `liq = 1`. -/
theorem clmm_position_decomposition_witness :
    positionAmounts 1 (1/2) 2 1 = (1 * (2 - 1) / (1 * 2), 1 * (1 - 1/2)) ∧
    0 < (positionAmounts 1 (1/2) 2 1).1 ∧
    0 < (positionAmounts 1 (1/2) 2 1).2 :=
  (clmm_position_decomposition 1 (1/2) 2 1 (by norm_num) (by norm_num)).2.2
    (by norm_num) (by norm_num)

/-! ## Minimum received (`handleSwap` in the Home component)

```ts
const minOut = (bestQuote.amountOut * BigInt(10000 - slippageBps)) / 10000n
```
BigInt division truncates towards zero; `Int.tdiv` is its exact model. -/

/-- The minimum-received amount derived from the selected quote. -/
def minimumReceived (amountOut : ℤ) (slippageBps : ℤ) : ℤ :=
  Int.tdiv (amountOut * (10000 - slippageBps)) 10000

lemma tdiv_natCast (m n : ℕ) : Int.tdiv (m : ℤ) (n : ℤ) = (m : ℤ) / (n : ℤ) := rfl

/-- **C6.** For a non-negative output amount and a slippage tolerance of at
most 10000 bps, the derived minimum-received amount is the exact floor of
`amountOut * (10000 - slippageBps) / 10000`; at `amountOut = 1000000` and
`slippageBps = 50` it is `995000`. -/
theorem minimum_received_floor (a s : ℤ) (ha : 0 ≤ a) (hs : 0 ≤ s)
    (hs10k : s ≤ 10000) :
    minimumReceived a s = ⌊((a * (10000 - s) : ℤ) : ℚ) / (10000 : ℚ)⌋ ∧
    minimumReceived 1000000 50 = 995000 := by
  constructor
  · have hn : 0 ≤ a * (10000 - s) := mul_nonneg ha (by linarith)
    obtain ⟨m, hm⟩ := Int.eq_ofNat_of_zero_le hn
    have h10 : ((10000 : ℕ) : ℚ) = (10000 : ℚ) := by norm_num
    rw [minimumReceived, hm, show ((10000 : ℤ)) = ((10000 : ℕ) : ℤ) by norm_num,
      tdiv_natCast, ← Rat.floor_intCast_div_natCast m 10000, Int.cast_natCast,
      h10]
  · rfl

/-- Witness for C6 at `amountOut = 1000000`, `slippageBps = 50`. -/
theorem minimum_received_floor_witness :
    minimumReceived 1000000 50 =
      ⌊((1000000 * (10000 - 50) : ℤ) : ℚ) / (10000 : ℚ)⌋ ∧
    minimumReceived 1000000 50 = 995000 :=
  minimum_received_floor 1000000 50 (by norm_num) (by norm_num) (by norm_num)

/-! ## Best-quote route selection (`updateQuote` in the Home component)

```ts
let best: BestQuoteResult | null = null
const matching = findPoolsForPair(fromToken, toToken)
for (const pool of matching) {
  if (pool.reserveA === 0n || pool.reserveB === 0n) continue
  const tokenIn = pool.denomA === fromToken ? 'A' : 'B'
  const quote = await getQuote(pool.id, tokenIn, amountIn)
  if (quote > 0n && (!best || quote > best.amountOut)) best = { ... }
}
for (const clmmPool of clmmPools) {
  const isAtoB = clmmPool.denomA === fromToken && clmmPool.denomB === toToken
  const isBtoA = clmmPool.denomB === fromToken && clmmPool.denomA === toToken
  if (!isAtoB && !isBtoA) continue
  if (clmmPool.liquidity === 0n) continue
  const tokenIn = isAtoB ? 'A' : 'B'
  const quote = await getCLMMQuote(clmmPool.id, tokenIn, amountIn)
  if (quote > 0n && (!best || quote > best.amountOut)) best = { ... }
}
```
The RPC quote calls are modelled as oracle functions from pool id, input side
and input amount to the quoted output. -/

/-- The input side of a swap. -/
inductive Side where
  | A : Side
  | B : Side
deriving DecidableEq, Repr

/-- A V2 constant-product pool snapshot (`PoolInfo` in `gno.ts`). -/
structure V2Pool where
  id : ℕ
  denomA : String
  denomB : String
  reserveA : ℕ
  reserveB : ℕ
  totalLP : ℕ
  feeBps : ℕ
deriving DecidableEq, Repr

/-- A CLMM pool snapshot (`CLMMPool` in `clmm.ts`). -/
structure ClmmPool where
  id : ℕ
  denomA : String
  denomB : String
  priceX6 : ℕ
  currentTick : ℤ
  liquidity : ℕ
  feeBPS : ℕ
  tickSpacing : ℕ
deriving DecidableEq, Repr

/-- A selected quote (`BestQuoteResult`): the winning pool with its pool-type
tag, the quoted output and the input side. -/
inductive BestQuote where
  | v2 : V2Pool → ℕ → Side → BestQuote
  | clmm : ClmmPool → ℕ → Side → BestQuote
deriving DecidableEq, Repr

/-- The output amount of a candidate quote. -/
def BestQuote.amountOut : BestQuote → ℕ
  | .v2 _ q _ => q
  | .clmm _ q _ => q

/-- `quote > 0n && (!best || quote > best.amountOut)` — when a freshly
computed quote replaces the running best. -/
def betterThan (q : ℕ) (best : Option BestQuote) : Prop :=
  0 < q ∧ match best with
    | none => True
    | some b => b.amountOut < q

instance (q : ℕ) (best : Option BestQuote) : Decidable (betterThan q best) := by
  unfold betterThan
  cases best <;> exact inferInstance

/-- `findPoolsForPair` from the Home component: V2 pools whose unordered
denom pair matches the request (empty token names match nothing). -/
def findPoolsForPair (pools : List V2Pool) (tokenA tokenB : String) :
    List V2Pool :=
  if tokenA = "" ∨ tokenB = "" then []
  else pools.filter fun p =>
    (p.denomA = tokenA ∧ p.denomB = tokenB) ∨
    (p.denomA = tokenB ∧ p.denomB = tokenA)

/-- One iteration of the V2 loop of `updateQuote`. -/
def stepV2 (fromToken : String) (v2q : ℕ → Side → ℕ → ℕ) (amountIn : ℕ)
    (best : Option BestQuote) (pool : V2Pool) : Option BestQuote :=
  if pool.reserveA = 0 ∨ pool.reserveB = 0 then best
  else
    let tokenIn : Side := if pool.denomA = fromToken then .A else .B
    let q := v2q pool.id tokenIn amountIn
    if betterThan q best then some (.v2 pool q tokenIn) else best

/-- One iteration of the CLMM loop of `updateQuote`. -/
def stepClmm (fromToken toToken : String) (cq : ℕ → Side → ℕ → ℕ)
    (amountIn : ℕ) (best : Option BestQuote) (pool : ClmmPool) :
    Option BestQuote :=
  let isAtoB := pool.denomA = fromToken ∧ pool.denomB = toToken
  let isBtoA := pool.denomB = fromToken ∧ pool.denomA = toToken
  if ¬ isAtoB ∧ ¬ isBtoA then best
  else if pool.liquidity = 0 then best
  else
    let tokenIn : Side := if isAtoB then .A else .B
    let q := cq pool.id tokenIn amountIn
    if betterThan q best then some (.clmm pool q tokenIn) else best

/-- The best-quote selection of `updateQuote`: the V2 loop over the matching
pools followed by the CLMM loop, starting from `best = null`. -/
def updateQuote (v2Pools : List V2Pool) (clmmPools : List ClmmPool)
    (fromToken toToken : String) (v2q cq : ℕ → Side → ℕ → ℕ)
    (amountIn : ℕ) : Option BestQuote :=
  let bestV2 := (findPoolsForPair v2Pools fromToken toToken).foldl
    (stepV2 fromToken v2q amountIn) none
  clmmPools.foldl (stepClmm fromToken toToken cq amountIn) bestV2

/-- The candidate a non-skipped V2 pool contributes. -/
def v2Candidate (fromToken : String) (v2q : ℕ → Side → ℕ → ℕ)
    (amountIn : ℕ) (pool : V2Pool) : BestQuote :=
  let tokenIn : Side := if pool.denomA = fromToken then .A else .B
  .v2 pool (v2q pool.id tokenIn amountIn) tokenIn

/-- The candidate a non-skipped CLMM pool contributes. -/
def clmmCandidate (fromToken toToken : String) (cq : ℕ → Side → ℕ → ℕ)
    (amountIn : ℕ) (pool : ClmmPool) : BestQuote :=
  let isAtoB := pool.denomA = fromToken ∧ pool.denomB = toToken
  let tokenIn : Side := if isAtoB then .A else .B
  .clmm pool (cq pool.id tokenIn amountIn) tokenIn

/-- Whether a CLMM pool matches the requested pair in either direction. -/
def clmmMatches (fromToken toToken : String) (pool : ClmmPool) : Prop :=
  (pool.denomA = fromToken ∧ pool.denomB = toToken) ∨
  (pool.denomB = fromToken ∧ pool.denomA = toToken)

instance (fromToken toToken : String) (pool : ClmmPool) :
    Decidable (clmmMatches fromToken toToken pool) := by
  unfold clmmMatches
  exact inferInstance

/-- The ordered list of candidate quotes `updateQuote` examines: the matching
V2 pools with non-zero reserves, in list order, followed by the matching CLMM
pools with non-zero liquidity, in list order. -/
def candidates (v2Pools : List V2Pool) (clmmPools : List ClmmPool)
    (fromToken toToken : String) (v2q cq : ℕ → Side → ℕ → ℕ)
    (amountIn : ℕ) : List BestQuote :=
  (((findPoolsForPair v2Pools fromToken toToken).filter fun p =>
      ¬ (p.reserveA = 0 ∨ p.reserveB = 0)).map
    (v2Candidate fromToken v2q amountIn)) ++
  ((clmmPools.filter fun p =>
      clmmMatches fromToken toToken p ∧ p.liquidity ≠ 0).map
    (clmmCandidate fromToken toToken cq amountIn))

/-- The reference scan: fold the running best over an explicit candidate
list. -/
def pickBest (best : Option BestQuote) : List BestQuote → Option BestQuote
  | [] => best
  | c :: cs =>
    pickBest (if betterThan c.amountOut best then some c else best) cs

lemma betterThan_none (q : ℕ) : betterThan q none ↔ 0 < q := by
  simp [betterThan]

lemma betterThan_some (q : ℕ) (b : BestQuote) :
    betterThan q (some b) ↔ 0 < q ∧ b.amountOut < q := by
  simp [betterThan]

lemma pickBest_append (best : Option BestQuote) (l1 l2 : List BestQuote) :
    pickBest best (l1 ++ l2) = pickBest (pickBest best l1) l2 := by
  induction l1 generalizing best with
  | nil => rfl
  | cons c cs ih => rw [List.cons_append, pickBest, pickBest, ih]

lemma foldl_stepV2_eq (fromToken : String) (v2q : ℕ → Side → ℕ → ℕ)
    (amountIn : ℕ) (l : List V2Pool) (best : Option BestQuote) :
    l.foldl (stepV2 fromToken v2q amountIn) best =
      pickBest best ((l.filter fun p =>
          ¬ (p.reserveA = 0 ∨ p.reserveB = 0)).map
        (v2Candidate fromToken v2q amountIn)) := by
  induction l generalizing best with
  | nil => rfl
  | cons p l ih =>
    by_cases h : p.reserveA = 0 ∨ p.reserveB = 0
    · rw [List.foldl_cons, List.filter_cons_of_neg
        (by simp only [decide_eq_true_eq]; exact not_not_intro h)]
      rw [ih, stepV2, if_pos h]
    · rw [List.foldl_cons, List.filter_cons_of_pos (by simp only [decide_eq_true_eq]; exact h)]
      rw [List.map_cons, pickBest, ih, stepV2, if_neg h]
      rfl

lemma foldl_stepClmm_eq (fromToken toToken : String)
    (cq : ℕ → Side → ℕ → ℕ) (amountIn : ℕ) (l : List ClmmPool)
    (best : Option BestQuote) :
    l.foldl (stepClmm fromToken toToken cq amountIn) best =
      pickBest best ((l.filter fun p =>
          clmmMatches fromToken toToken p ∧ p.liquidity ≠ 0).map
        (clmmCandidate fromToken toToken cq amountIn)) := by
  induction l generalizing best with
  | nil => rfl
  | cons p l ih =>
    rw [List.foldl_cons]
    by_cases hm : clmmMatches fromToken toToken p
    · by_cases hl : p.liquidity = 0
      · have hna : ¬ (clmmMatches fromToken toToken p ∧ p.liquidity ≠ 0) :=
          fun hc => hc.2 hl
        rw [List.filter_cons_of_neg
          (by simp only [decide_eq_true_eq]; exact hna)]
        rw [ih, stepClmm]
        have hnot : ¬ (¬ (p.denomA = fromToken ∧ p.denomB = toToken) ∧
            ¬ (p.denomB = fromToken ∧ p.denomA = toToken)) := by
          intro hc
          rcases hm with h1 | h2
          · exact hc.1 h1
          · exact hc.2 h2
        rw [if_neg hnot, if_pos hl]
      · have hya : clmmMatches fromToken toToken p ∧ p.liquidity ≠ 0 := ⟨hm, hl⟩
        rw [List.filter_cons_of_pos (by simp only [decide_eq_true_eq]; exact hya)]
        rw [List.map_cons, pickBest, ih, stepClmm]
        have hnot : ¬ (¬ (p.denomA = fromToken ∧ p.denomB = toToken) ∧
            ¬ (p.denomB = fromToken ∧ p.denomA = toToken)) := by
          intro hc
          rcases hm with h1 | h2
          · exact hc.1 h1
          · exact hc.2 h2
        rw [if_neg hnot, if_neg hl]
        rfl
    · have hna : ¬ (clmmMatches fromToken toToken p ∧ p.liquidity ≠ 0) :=
        fun hc => hm hc.1
      rw [List.filter_cons_of_neg
        (by simp only [decide_eq_true_eq]; exact hna)]
      rw [ih, stepClmm]
      have hskip : ¬ (p.denomA = fromToken ∧ p.denomB = toToken) ∧
          ¬ (p.denomB = fromToken ∧ p.denomA = toToken) := by
        constructor
        · intro hc
          exact hm (Or.inl hc)
        · intro hc
          exact hm (Or.inr hc)
      rw [if_pos hskip]

/-- `updateQuote` is exactly the reference scan over the ordered candidate
list: matching non-degenerate V2 pools first, then matching non-degenerate
CLMM pools. -/
lemma updateQuote_eq_pickBest (v2Pools : List V2Pool)
    (clmmPools : List ClmmPool) (fromToken toToken : String)
    (v2q cq : ℕ → Side → ℕ → ℕ) (amountIn : ℕ) :
    updateQuote v2Pools clmmPools fromToken toToken v2q cq amountIn =
      pickBest none
        (candidates v2Pools clmmPools fromToken toToken v2q cq amountIn) := by
  rw [updateQuote, candidates, pickBest_append, foldl_stepV2_eq,
    foldl_stepClmm_eq]

lemma pickBest_eq_none_iff (cs : List BestQuote) (best : Option BestQuote) :
    pickBest best cs = none ↔ best = none ∧ ∀ c ∈ cs, c.amountOut = 0 := by
  induction cs generalizing best with
  | nil =>
    simp [pickBest]
  | cons c cs ih =>
    rw [pickBest, ih]
    by_cases h : betterThan c.amountOut best
    · rw [if_pos h]
      simp only [List.mem_cons]
      constructor
      · rintro ⟨h1, -⟩
        exact absurd h1 (Option.some_ne_none c)
      · rintro ⟨h1, h2⟩
        subst h1
        have hz := h2 c (Or.inl rfl)
        rw [betterThan_none] at h
        omega
    · rw [if_neg h]
      simp only [List.mem_cons]
      constructor
      · rintro ⟨h1, h2⟩
        subst h1
        rw [betterThan_none] at h
        refine ⟨rfl, ?_⟩
        rintro d (rfl | hd)
        · omega
        · exact h2 d hd
      · rintro ⟨h1, h2⟩
        exact ⟨h1, fun d hd => h2 d (Or.inr hd)⟩

lemma pickBest_some_char (cs : List BestQuote) (best : Option BestQuote)
    (b : BestQuote) (h : pickBest best cs = some b) :
    (best = some b ∧ ∀ c ∈ cs, c.amountOut ≤ b.amountOut) ∨
    (0 < b.amountOut ∧
      (∀ x, best = some x → x.amountOut < b.amountOut) ∧
      ∃ l1 l2, cs = l1 ++ b :: l2 ∧
        (∀ c ∈ l1, c.amountOut < b.amountOut) ∧
        (∀ c ∈ l2, c.amountOut ≤ b.amountOut)) := by
  induction cs generalizing best with
  | nil =>
    rw [pickBest] at h
    exact Or.inl ⟨h, by simp⟩
  | cons c cs ih =>
    rw [pickBest] at h
    by_cases hb : betterThan c.amountOut best
    · rw [if_pos hb] at h
      have hc0 : 0 < c.amountOut := hb.1
      rcases ih _ h with ⟨h1, h2⟩ | ⟨h1, h2, l1, l2, hsplit, hlt, hle⟩
      · have hcb : c = b := Option.some_injective _ h1
        subst hcb
        right
        refine ⟨hc0, ?_, [], cs, rfl, by simp, h2⟩
        intro x hx
        subst hx
        exact ((betterThan_some _ _).mp hb).2
      · have hcb : c.amountOut < b.amountOut := h2 c rfl
        right
        refine ⟨h1, ?_, c :: l1, l2, by rw [hsplit, List.cons_append], ?_, hle⟩
        · intro x hx
          subst hx
          exact lt_trans ((betterThan_some _ _).mp hb).2 hcb
        · intro d hd
          rcases List.mem_cons.mp hd with rfl | hd2
          · exact hcb
          · exact hlt d hd2
    · rw [if_neg hb] at h
      rcases ih _ h with ⟨h1, h2⟩ | ⟨h1, h2, l1, l2, hsplit, hlt, hle⟩
      · left
        subst h1
        refine ⟨rfl, ?_⟩
        intro d hd
        rcases List.mem_cons.mp hd with rfl | hd2
        · rw [betterThan_some] at hb
          push_neg at hb
          by_cases hd0 : 0 < d.amountOut
          · exact hb hd0
          · omega
        · exact h2 d hd2
      · right
        have hcb : c.amountOut < b.amountOut := by
          cases hbest : best with
          | none =>
            rw [hbest, betterThan_none] at hb
            omega
          | some y =>
            rw [hbest, betterThan_some] at hb
            push_neg at hb
            have hy : y.amountOut < b.amountOut := h2 y hbest
            by_cases hc0 : 0 < c.amountOut
            · have := hb hc0
              omega
            · omega
        refine ⟨h1, h2, c :: l1, l2, by rw [hsplit, List.cons_append], ?_, hle⟩
        intro d hd
        rcases List.mem_cons.mp hd with rfl | hd2
        · exact hcb
        · exact hlt d hd2

/-- **C3.** `updateQuote` scans exactly the ordered candidate list — matching
V2 pools with non-zero reserves first, then matching CLMM pools with non-zero
liquidity, each in input order (ascending pool id when the pool lists are
id-sorted) — selects the maximum output with ties resolved first-seen (every
earlier candidate is strictly smaller, every later one no larger), and
returns `none` exactly when no candidate yields a strictly positive
output. -/
theorem best_quote_selection (v2Pools : List V2Pool) (clmmPools : List ClmmPool)
    (fromToken toToken : String) (v2q cq : ℕ → Side → ℕ → ℕ) (amountIn : ℕ)
    (ha : 0 < amountIn)
    (hv2 : v2Pools.Pairwise fun p q => p.id < q.id)
    (hcl : clmmPools.Pairwise fun p q => p.id < q.id) :
    updateQuote v2Pools clmmPools fromToken toToken v2q cq amountIn =
      pickBest none
        (candidates v2Pools clmmPools fromToken toToken v2q cq amountIn) ∧
    (updateQuote v2Pools clmmPools fromToken toToken v2q cq amountIn = none ↔
      ∀ c ∈ candidates v2Pools clmmPools fromToken toToken v2q cq amountIn,
        c.amountOut = 0) ∧
    (∀ b, updateQuote v2Pools clmmPools fromToken toToken v2q cq amountIn =
        some b →
      0 < b.amountOut ∧
      ∃ l1 l2,
        candidates v2Pools clmmPools fromToken toToken v2q cq amountIn =
          l1 ++ b :: l2 ∧
        (∀ c ∈ l1, c.amountOut < b.amountOut) ∧
        (∀ c ∈ l2, c.amountOut ≤ b.amountOut)) ∧
    (∃ (vps : List V2Pool) (cps : List ClmmPool),
      candidates v2Pools clmmPools fromToken toToken v2q cq amountIn =
        vps.map (v2Candidate fromToken v2q amountIn) ++
        cps.map (clmmCandidate fromToken toToken cq amountIn) ∧
      (vps.Pairwise fun p q => p.id < q.id) ∧
      (cps.Pairwise fun p q => p.id < q.id) ∧
      (∀ p ∈ vps, ((p.denomA = fromToken ∧ p.denomB = toToken) ∨
          (p.denomA = toToken ∧ p.denomB = fromToken)) ∧
        p.reserveA ≠ 0 ∧ p.reserveB ≠ 0) ∧
      (∀ p ∈ cps, clmmMatches fromToken toToken p ∧ p.liquidity ≠ 0)) := by
  refine ⟨updateQuote_eq_pickBest _ _ _ _ _ _ _, ?_, ?_, ?_⟩
  · rw [updateQuote_eq_pickBest, pickBest_eq_none_iff]
    simp
  · intro b hb
    rw [updateQuote_eq_pickBest] at hb
    rcases pickBest_some_char _ _ _ hb with ⟨h1, -⟩ | ⟨h1, -, l1, l2, hs3, hlt, hle⟩
    · exact absurd h1.symm (Option.some_ne_none b)
    · exact ⟨h1, l1, l2, hs3, hlt, hle⟩
  · refine ⟨(findPoolsForPair v2Pools fromToken toToken).filter
        (fun p => ¬ (p.reserveA = 0 ∨ p.reserveB = 0)),
      clmmPools.filter
        (fun p => clmmMatches fromToken toToken p ∧ p.liquidity ≠ 0),
      rfl, ?_, ?_, ?_, ?_⟩
    · apply List.Pairwise.filter
      rw [findPoolsForPair]
      by_cases hempty : fromToken = "" ∨ toToken = ""
      · rw [if_pos hempty]
        exact List.Pairwise.nil
      · rw [if_neg hempty]
        exact hv2.filter _
    · exact hcl.filter _
    · intro p hp
      rw [List.mem_filter] at hp
      obtain ⟨hp1, hp2⟩ := hp
      rw [findPoolsForPair] at hp1
      by_cases hempty : fromToken = "" ∨ toToken = ""
      · rw [if_pos hempty] at hp1
        exact absurd hp1 (List.not_mem_nil p)
      · rw [if_neg hempty] at hp1
        rw [List.mem_filter] at hp1
        have hmatch := of_decide_eq_true hp1.2
        have hres := of_decide_eq_true hp2
        push_neg at hres
        exact ⟨hmatch, hres.1, hres.2⟩
    · intro p hp
      rw [List.mem_filter] at hp
      exact of_decide_eq_true hp.2

/-- Witness for C3: one V2 pool and one CLMM pool on the pair `a`/`b`, each
quoting `7`. -/
theorem best_quote_selection_witness :
    updateQuote [⟨0, "a", "b", 100, 200, 10, 30⟩]
        [⟨0, "a", "b", 1000000, 0, 50, 30, 10⟩] "a" "b"
        (fun _ _ _ => 7) (fun _ _ _ => 7) 5 = none ↔
      ∀ c ∈ candidates [⟨0, "a", "b", 100, 200, 10, 30⟩]
          [⟨0, "a", "b", 1000000, 0, 50, 30, 10⟩] "a" "b"
          (fun _ _ _ => 7) (fun _ _ _ => 7) 5,
        c.amountOut = 0 :=
  (best_quote_selection [⟨0, "a", "b", 100, 200, 10, 30⟩]
    [⟨0, "a", "b", 1000000, 0, 50, 30, 10⟩] "a" "b"
    (fun _ _ _ => 7) (fun _ _ _ => 7) 5 (by decide)
    (List.pairwise_singleton _ _) (List.pairwise_singleton _ _)).2.1

/-! ## Price history store (`frontend/lib/priceHistory.ts`)

```ts
const MAX_DATA_POINTS = 100
const MAX_AGE_MS = 24 * 60 * 60 * 1000
```
The persisted `StorageData` is a JS object mapping pair labels to point
arrays, plus a `lastCleanup` timestamp.  A JS object cannot hold duplicate
keys; it is modelled as an association list looked up by first match.
Prices reaching the store are finite, but `recordPrice` accepts any JS
number, modelled by `JSPrice`. -/

/-- A stored price point: wall-clock timestamp in milliseconds and price. -/
structure PricePoint where
  timestamp : ℤ
  price : ℚ
deriving DecidableEq, Repr

/-- `MAX_DATA_POINTS`: at most 100 points per pair. -/
def MAX_DATA_POINTS : ℕ := 100

/-- `MAX_AGE_MS`: the 24-hour age window in milliseconds. -/
def MAX_AGE_MS : ℤ := 24 * 60 * 60 * 1000

/-- The persisted `StorageData`. -/
structure Storage where
  pairs : List (String × List PricePoint)
  lastCleanup : ℤ
deriving DecidableEq, Repr

/-- A JS `number` passed to `recordPrice` as the price. -/
inductive JSPrice where
  | nan : JSPrice
  | posInf : JSPrice
  | negInf : JSPrice
  | fin : ℚ → JSPrice
deriving DecidableEq, Repr

/-- `data.pairs[pair] || []`: read a pair's series (missing pairs read as
empty). -/
def lookupPair (pairs : List (String × List PricePoint)) (pair : String) :
    List PricePoint :=
  match pairs.find? (fun e => e.1 = pair) with
  | some e => e.2
  | none => []

/-- `data.pairs[pair] = pts`: write a pair's series (JS object update:
overwrite in place, or add the key at the end). -/
def setPair : List (String × List PricePoint) → String → List PricePoint →
    List (String × List PricePoint)
  | [], pair, pts => [(pair, pts)]
  | e :: rest, pair, pts =>
    if e.1 = pair then (pair, pts) :: rest else e :: setPair rest pair pts

/-- `array.slice(-n)` for `n > 0`: the last `n` elements. -/
def takeLast (n : ℕ) (l : List PricePoint) : List PricePoint :=
  l.drop (l.length - n)

/-- `cleanupOldData`: for each pair drop points no younger than the 24-hour
cutoff, keep only the last `MAX_DATA_POINTS` of the survivors, and drop pairs
left empty. -/
def cleanupOldData (pairs : List (String × List PricePoint)) (now : ℤ) :
    List (String × List PricePoint) :=
  pairs.filterMap fun e =>
    let filtered := e.2.filter fun p => now - MAX_AGE_MS < p.timestamp
    if 0 < filtered.length then some (e.1, takeLast MAX_DATA_POINTS filtered)
    else none

/-- Push a point and trim to the cap
(`points.push(...)`, then `slice(-MAX_DATA_POINTS)` if over the cap). -/
def capAppend (pts : List PricePoint) (p : PricePoint) : List PricePoint :=
  let newPts := pts ++ [p]
  if MAX_DATA_POINTS < newPts.length then takeLast MAX_DATA_POINTS newPts
  else newPts

/-- `recordPrice(pair, price)` at wall-clock time `now`, acting on the
persisted storage.  Invalid prices return before touching anything; the
hourly cleanup mutates only the in-memory copy, so on the deduplication
early return the persisted storage is the original one. -/
def recordPrice (st : Storage) (pair : String) (price : JSPrice) (now : ℤ) :
    Storage :=
  match price with
  | .fin q =>
    if q ≤ 0 then st
    else
      let st1 : Storage :=
        if 3600000 < now - st.lastCleanup then
          ⟨cleanupOldData st.pairs now, now⟩
        else st
      let pts := lookupPair st1.pairs pair
      let dedup : Bool :=
        match pts.getLast? with
        | some lastPoint =>
          decide (now - lastPoint.timestamp < 30000) &&
          decide (|q - lastPoint.price| / lastPoint.price < 1/1000)
        | none => false
      if dedup then st
      else ⟨setPair st1.pairs pair (capAppend pts ⟨now, q⟩), st1.lastCleanup⟩
  | _ => st

/-- The record returned by `getPriceStats`. -/
structure PriceStats where
  current : ℚ
  change24h : ℚ
  changePercent24h : ℚ
  high24h : ℚ
  low24h : ℚ
deriving DecidableEq, Repr

/-- `Math.max(...prices)` over a non-empty list. -/
def listMax : List ℚ → ℚ
  | [] => 0
  | h :: t => t.foldl max h

/-- `Math.min(...prices)` over a non-empty list. -/
def listMin : List ℚ → ℚ
  | [] => 0
  | h :: t => t.foldl min h

/-- `getPriceStats(pair)` at wall-clock time `now`. -/
def getPriceStats (st : Storage) (pair : String) (now : ℤ) :
    Option PriceStats :=
  let points := lookupPair st.pairs pair
  if points.length = 0 then none
  else
    let current := ((points.getLast?).getD ⟨0, 0⟩).price
    let dayAgo := now - 24 * 60 * 60 * 1000
    let recentPoints := points.filter fun p => dayAgo < p.timestamp
    match recentPoints with
    | [] => some ⟨current, 0, 0, current, current⟩
    | first :: rest =>
      let oldestRecent := first.price
      let change24h := current - oldestRecent
      let changePercent24h := change24h / oldestRecent * 100
      let prices := (first :: rest).map fun p => p.price
      some ⟨current, change24h, changePercent24h, listMax prices, listMin prices⟩

lemma lookupPair_nil (pair : String) : lookupPair [] pair = [] := rfl

lemma lookupPair_cons (e : String × List PricePoint)
    (rest : List (String × List PricePoint)) (pair : String) :
    lookupPair (e :: rest) pair =
      if e.1 = pair then e.2 else lookupPair rest pair := by
  by_cases h : e.1 = pair
  · rw [if_pos h]
    unfold lookupPair
    rw [List.find?_cons_of_pos _ (by simp [h])]
  · rw [if_neg h]
    unfold lookupPair
    rw [List.find?_cons_of_neg _ (by simp [h])]

lemma lookupPair_setPair (pairs : List (String × List PricePoint))
    (pair : String) (pts : List PricePoint) :
    lookupPair (setPair pairs pair pts) pair = pts := by
  induction pairs with
  | nil =>
    rw [setPair, lookupPair_cons, if_pos rfl]
  | cons e rest ih =>
    rw [setPair]
    by_cases h : e.1 = pair
    · rw [if_pos h, lookupPair_cons, if_pos rfl]
    · rw [if_neg h, lookupPair_cons, if_neg h, ih]

lemma lookupPair_setPair_ne (pairs : List (String × List PricePoint))
    (pair p2 : String) (pts : List PricePoint) (hne : p2 ≠ pair) :
    lookupPair (setPair pairs pair pts) p2 = lookupPair pairs p2 := by
  induction pairs with
  | nil =>
    rw [setPair, lookupPair_cons, if_neg (fun h => hne h.symm), lookupPair_nil]
  | cons e rest ih =>
    rw [setPair]
    by_cases h : e.1 = pair
    · rw [if_pos h, lookupPair_cons, lookupPair_cons,
        if_neg (fun hc => hne hc.symm), if_neg (fun hc => hne (h ▸ hc).symm)]
    · rw [if_neg h, lookupPair_cons, lookupPair_cons, ih]

lemma filter_getLast?_of_pos (l : List PricePoint) (a : PricePoint)
    (f : PricePoint → Bool) (hl : l.getLast? = some a) (ha : f a = true) :
    (l.filter f).getLast? = some a := by
  obtain ⟨l1, rfl⟩ := List.getLast?_eq_some_iff.mp hl
  rw [List.filter_append, List.filter_cons_of_pos ha, List.filter_nil,
    List.getLast?_concat]

lemma takeLast_getLast? (n : ℕ) (hn : 0 < n) (l : List PricePoint)
    (a : PricePoint) (hl : l.getLast? = some a) :
    (takeLast n l).getLast? = some a := by
  obtain ⟨l1, rfl⟩ := List.getLast?_eq_some_iff.mp hl
  rw [takeLast, List.drop_append_of_le_length
    (by simp; omega), List.getLast?_concat]

lemma takeLast_length (n : ℕ) (l : List PricePoint) :
    (takeLast n l).length = min n l.length := by
  rw [takeLast, List.length_drop]
  omega

lemma takeLast_subset (n : ℕ) (l : List PricePoint) : takeLast n l ⊆ l :=
  List.drop_subset _ l

lemma capAppend_eq_takeLast (pts : List PricePoint) (p : PricePoint) :
    capAppend pts p = takeLast MAX_DATA_POINTS (pts ++ [p]) := by
  rw [capAppend]
  by_cases h : MAX_DATA_POINTS < (pts ++ [p]).length
  · rw [if_pos h]
  · rw [if_neg h, takeLast]
    push_neg at h
    rw [show (pts ++ [p]).length - MAX_DATA_POINTS = 0 by omega, List.drop_zero]

lemma capAppend_length_le (pts : List PricePoint) (p : PricePoint)
    (h : pts.length ≤ MAX_DATA_POINTS) :
    (capAppend pts p).length ≤ MAX_DATA_POINTS := by
  rw [capAppend_eq_takeLast, takeLast_length]
  omega

lemma lookupPair_cleanup_of_ne_nil (pairs : List (String × List PricePoint))
    (now : ℤ) (p2 : String)
    (hne : 0 < ((lookupPair pairs p2).filter fun p =>
      now - MAX_AGE_MS < p.timestamp).length) :
    lookupPair (cleanupOldData pairs now) p2 =
      takeLast MAX_DATA_POINTS ((lookupPair pairs p2).filter fun p =>
        now - MAX_AGE_MS < p.timestamp) := by
  induction pairs with
  | nil => simp [lookupPair_nil] at hne
  | cons e rest ih =>
    rw [lookupPair_cons] at hne
    by_cases h : e.1 = p2
    · rw [if_pos h] at hne
      rw [cleanupOldData, List.filterMap_cons]
      simp only [if_pos hne]
      rw [lookupPair_cons, lookupPair_cons, if_pos h, if_pos h]
    · rw [if_neg h] at hne
      rw [cleanupOldData, List.filterMap_cons]
      rcases hkeep : (if 0 < (e.2.filter fun p =>
          now - MAX_AGE_MS < p.timestamp).length then
          some (e.1, takeLast MAX_DATA_POINTS (e.2.filter fun p =>
            now - MAX_AGE_MS < p.timestamp))
        else none) with - | v
      · rw [lookupPair_cons, if_neg h]
        exact ih hne
      · have hv1 : v.1 = e.1 := by
          by_cases hc : 0 < (e.2.filter fun p =>
              now - MAX_AGE_MS < p.timestamp).length
          · rw [if_pos hc] at hkeep
            cases hkeep
            rfl
          · rw [if_neg hc] at hkeep
            cases hkeep
        rw [lookupPair_cons, hv1, if_neg h, lookupPair_cons, if_neg h]
        exact ih hne

lemma lookupPair_cleanup_length_le (pairs : List (String × List PricePoint))
    (now : ℤ) (p2 : String) :
    (lookupPair (cleanupOldData pairs now) p2).length ≤ MAX_DATA_POINTS := by
  induction pairs with
  | nil =>
    rw [cleanupOldData, List.filterMap_nil, lookupPair_nil]
    exact Nat.zero_le _
  | cons e rest ih =>
    rw [cleanupOldData, List.filterMap_cons]
    by_cases hc : 0 < (e.2.filter fun p =>
        now - MAX_AGE_MS < p.timestamp).length
    · simp only [if_pos hc]
      rw [lookupPair_cons]
      by_cases h : e.1 = p2
      · rw [if_pos h, takeLast_length]
        omega
      · rw [if_neg h]
        exact ih
    · simp only [if_neg hc]
      exact ih

lemma lookupPair_cleanup_mem (pairs : List (String × List PricePoint))
    (now : ℤ) (p2 : String) (pt : PricePoint)
    (hmem : pt ∈ lookupPair (cleanupOldData pairs now) p2) :
    now - MAX_AGE_MS < pt.timestamp := by
  induction pairs with
  | nil =>
    rw [cleanupOldData, List.filterMap_nil, lookupPair_nil] at hmem
    exact absurd hmem (List.not_mem_nil pt)
  | cons e rest ih =>
    rw [cleanupOldData, List.filterMap_cons] at hmem
    by_cases hc : 0 < (e.2.filter fun p =>
        now - MAX_AGE_MS < p.timestamp).length
    · simp only [if_pos hc] at hmem
      rw [lookupPair_cons] at hmem
      by_cases h : e.1 = p2
      · rw [if_pos h] at hmem
        have hsub := takeLast_subset MAX_DATA_POINTS
          (e.2.filter fun p => now - MAX_AGE_MS < p.timestamp) hmem
        have := List.mem_filter.mp hsub
        exact of_decide_eq_true this.2
      · rw [if_neg h] at hmem
        exact ih hmem
    · simp only [if_neg hc] at hmem
      exact ih hmem

lemma lookupPair_of_not_mem_keys (pairs : List (String × List PricePoint))
    (p2 : String) (h : p2 ∉ pairs.map Prod.fst) :
    lookupPair pairs p2 = [] := by
  induction pairs with
  | nil => rfl
  | cons e rest ih =>
    rw [List.map_cons, List.mem_cons] at h
    push_neg at h
    rw [lookupPair_cons, if_neg (fun hc => h.1 hc.symm)]
    exact ih h.2

lemma lookupPair_cleanup_of_not_mem_keys
    (pairs : List (String × List PricePoint)) (now : ℤ) (p2 : String)
    (h : p2 ∉ pairs.map Prod.fst) :
    lookupPair (cleanupOldData pairs now) p2 = [] := by
  induction pairs with
  | nil => rfl
  | cons e rest ih =>
    rw [List.map_cons, List.mem_cons] at h
    push_neg at h
    rw [cleanupOldData, List.filterMap_cons]
    by_cases hc : 0 < (e.2.filter fun p =>
        now - MAX_AGE_MS < p.timestamp).length
    · simp only [if_pos hc]
      rw [lookupPair_cons, if_neg (fun hcc => h.1 hcc.symm)]
      exact ih h.2
    · simp only [if_neg hc]
      exact ih h.2

lemma lookupPair_cleanup_of_filter_empty
    (pairs : List (String × List PricePoint)) (now : ℤ) (p2 : String)
    (hnodup : (pairs.map Prod.fst).Nodup)
    (hfe : (lookupPair pairs p2).filter
      (fun p => now - MAX_AGE_MS < p.timestamp) = []) :
    lookupPair (cleanupOldData pairs now) p2 = [] := by
  induction pairs with
  | nil => rfl
  | cons e rest ih =>
    rw [List.map_cons, List.nodup_cons] at hnodup
    rw [lookupPair_cons] at hfe
    by_cases h : e.1 = p2
    · rw [if_pos h] at hfe
      rw [cleanupOldData, List.filterMap_cons]
      simp only [hfe, List.length_nil, lt_irrefl, if_false]
      exact lookupPair_cleanup_of_not_mem_keys rest now p2 (h ▸ hnodup.1)
    · rw [if_neg h] at hfe
      rw [cleanupOldData, List.filterMap_cons]
      by_cases hc : 0 < (e.2.filter fun p =>
          now - MAX_AGE_MS < p.timestamp).length
      · simp only [if_pos hc]
        rw [lookupPair_cons, if_neg h]
        exact ih hnodup.2 hfe
      · simp only [if_neg hc]
        exact ih hnodup.2 hfe

lemma lookupPair_cleanup_of_empty (pairs : List (String × List PricePoint))
    (now : ℤ) (p2 : String) (hnodup : (pairs.map Prod.fst).Nodup)
    (hempty : lookupPair pairs p2 = []) :
    lookupPair (cleanupOldData pairs now) p2 = [] :=
  lookupPair_cleanup_of_filter_empty pairs now p2 hnodup
    (by rw [hempty, List.filter_nil])

lemma lookupPair_cleanup_eq (pairs : List (String × List PricePoint))
    (now : ℤ) (p2 : String) (hnodup : (pairs.map Prod.fst).Nodup) :
    lookupPair (cleanupOldData pairs now) p2 =
      takeLast MAX_DATA_POINTS ((lookupPair pairs p2).filter fun p =>
        now - MAX_AGE_MS < p.timestamp) := by
  by_cases hc : 0 < ((lookupPair pairs p2).filter fun p =>
      now - MAX_AGE_MS < p.timestamp).length
  · exact lookupPair_cleanup_of_ne_nil pairs now p2 hc
  · have hfe : (lookupPair pairs p2).filter
        (fun p => now - MAX_AGE_MS < p.timestamp) = [] := by
      cases hl : (lookupPair pairs p2).filter
          (fun p => now - MAX_AGE_MS < p.timestamp) with
      | nil => rfl
      | cons a t => rw [hl] at hc; simp at hc
    rw [lookupPair_cleanup_of_filter_empty pairs now p2 hnodup hfe, hfe]
    rfl

/-- The young last point survives the cleanup as the last point: the
deduplication check after a cleanup still sees it. -/
lemma dedup_sees_last_after_cleanup (pairs : List (String × List PricePoint))
    (now : ℤ) (pair : String) (lastP : PricePoint)
    (hlast : (lookupPair pairs pair).getLast? = some lastP)
    (hyoung : now - MAX_AGE_MS < lastP.timestamp) :
    (lookupPair (cleanupOldData pairs now) pair).getLast? = some lastP := by
  have hfl : ((lookupPair pairs pair).filter fun p =>
      now - MAX_AGE_MS < p.timestamp).getLast? = some lastP :=
    filter_getLast?_of_pos _ _ _ hlast (decide_eq_true hyoung)
  have hne : 0 < ((lookupPair pairs pair).filter fun p =>
      now - MAX_AGE_MS < p.timestamp).length := by
    cases hl : (lookupPair pairs pair).filter
        (fun p => now - MAX_AGE_MS < p.timestamp) with
    | nil => rw [hl] at hfl; simp at hfl
    | cons a t => simp
  rw [lookupPair_cleanup_of_ne_nil pairs now pair hne]
  exact takeLast_getLast? MAX_DATA_POINTS (by norm_num [MAX_DATA_POINTS]) _ _ hfl

/-- Deduplication: a call less than 30 s after the pair's last point with a
relative price change below 0.1 % leaves the persisted storage untouched. -/
lemma recordPrice_dedup_noop (st : Storage) (pair : String) (q : ℚ) (now : ℤ)
    (lastP : PricePoint)
    (hlast : (lookupPair st.pairs pair).getLast? = some lastP)
    (hq : 0 < q)
    (h30 : now - lastP.timestamp < 30000)
    (hdiff : |q - lastP.price| / lastP.price < 1/1000) :
    recordPrice st pair (.fin q) now = st := by
  have hcond : (decide (now - lastP.timestamp < 30000) &&
      decide (|q - lastP.price| / lastP.price < 1/1000)) = true := by
    rw [decide_eq_true h30, decide_eq_true hdiff]
    rfl
  simp only [recordPrice]
  rw [if_neg (not_le.mpr hq)]
  by_cases hcl : 3600000 < now - st.lastCleanup
  · rw [if_pos hcl]
    have hy : now - MAX_AGE_MS < lastP.timestamp := by
      rw [MAX_AGE_MS]
      omega
    rw [dedup_sees_last_after_cleanup st.pairs now pair lastP hlast hy]
    exact if_pos hcond
  · rw [if_neg hcl, hlast]
    exact if_pos hcond

lemma capAppend_getLast? (pts : List PricePoint) (p : PricePoint) :
    (capAppend pts p).getLast? = some p := by
  rw [capAppend_eq_takeLast]
  exact takeLast_getLast? _ (by norm_num [MAX_DATA_POINTS]) _ _
    (List.getLast?_concat pts)

/-- The deduplication flag of `recordPrice`, as a function of the series the
check reads. -/
def dedupFlag (pts : List PricePoint) (q : ℚ) (now : ℤ) : Bool :=
  match pts.getLast? with
  | some lastPoint =>
    decide (now - lastPoint.timestamp < 30000) &&
    decide (|q - lastPoint.price| / lastPoint.price < 1/1000)
  | none => false

lemma dedupFlag_eq_false (pts : List PricePoint) (q : ℚ) (now : ℤ)
    (h : ∀ lastP, pts.getLast? = some lastP →
      ¬ (now - lastP.timestamp < 30000 ∧
         |q - lastP.price| / lastP.price < 1/1000)) :
    dedupFlag pts q now = false := by
  rw [dedupFlag]
  cases hl : pts.getLast? with
  | none => rfl
  | some lastP =>
    have hn := h lastP hl
    show (decide (now - lastP.timestamp < 30000) &&
      decide (|q - lastP.price| / lastP.price < 1/1000)) = false
    by_cases h1 : now - lastP.timestamp < 30000
    · have h2 : ¬ (|q - lastP.price| / lastP.price < 1/1000) :=
        fun hc => hn ⟨h1, hc⟩
      rw [decide_eq_true h1, decide_eq_false h2]
      rfl
    · rw [decide_eq_false h1]
      rfl

/-- A `recordPrice` call that passes the deduplication check and does not
trigger the hourly cleanup: append to the pair's series, trim to the cap. -/
lemma recordPrice_no_cleanup_append (st : Storage) (pair : String) (q : ℚ)
    (now : ℤ) (hq : 0 < q) (hcl : ¬ 3600000 < now - st.lastCleanup)
    (hded : ∀ lastP, (lookupPair st.pairs pair).getLast? = some lastP →
      ¬ (now - lastP.timestamp < 30000 ∧
         |q - lastP.price| / lastP.price < 1/1000)) :
    recordPrice st pair (.fin q) now =
      ⟨setPair st.pairs pair
        (capAppend (lookupPair st.pairs pair) ⟨now, q⟩), st.lastCleanup⟩ := by
  have hflag := dedupFlag_eq_false (lookupPair st.pairs pair) q now hded
  rw [dedupFlag] at hflag
  simp only [recordPrice]
  rw [if_neg (not_le.mpr hq), if_neg hcl]
  exact if_neg (fun hc => by rw [hflag] at hc; exact Bool.false_ne_true hc)

/-- A `recordPrice` call that passes the deduplication check and triggers the
hourly cleanup: purge everywhere, then append to the pair's series. -/
lemma recordPrice_cleanup_append (st : Storage) (pair : String) (q : ℚ)
    (now : ℤ) (hq : 0 < q) (hcl : 3600000 < now - st.lastCleanup)
    (hded : ∀ lastP,
      (lookupPair (cleanupOldData st.pairs now) pair).getLast? = some lastP →
      ¬ (now - lastP.timestamp < 30000 ∧
         |q - lastP.price| / lastP.price < 1/1000)) :
    recordPrice st pair (.fin q) now =
      ⟨setPair (cleanupOldData st.pairs now) pair
        (capAppend (lookupPair (cleanupOldData st.pairs now) pair)
          ⟨now, q⟩), now⟩ := by
  have hflag := dedupFlag_eq_false
    (lookupPair (cleanupOldData st.pairs now) pair) q now hded
  rw [dedupFlag] at hflag
  simp only [recordPrice]
  rw [if_neg (not_le.mpr hq), if_pos hcl]
  exact if_neg (fun hc => by rw [hflag] at hc; exact Bool.false_ne_true hc)

lemma sorted_all_le_last (l : List PricePoint) (lastP : PricePoint)
    (hl : l.getLast? = some lastP)
    (hsort : l.Pairwise fun a b => a.timestamp ≤ b.timestamp) :
    ∀ a ∈ l, a.timestamp ≤ lastP.timestamp := by
  obtain ⟨l1, rfl⟩ := List.getLast?_eq_some_iff.mp hl
  intro a ha
  rcases List.mem_append.mp ha with h1 | h2
  · exact (List.pairwise_append.mp hsort).2.2 a h1 lastP (by simp)
  · rw [List.mem_singleton.mp h2]

/-- The last point `recordPrice`'s deduplication check reads, after an
appending call's own store mutation. -/
lemma recordPrice_append_getLast (st : Storage) (pair : String) (q : ℚ)
    (now : ℤ) (lastP : PricePoint)
    (hnodup : (st.pairs.map Prod.fst).Nodup)
    (hlast : (lookupPair st.pairs pair).getLast? = some lastP)
    (hq : 0 < q)
    (hsort : (lookupPair st.pairs pair).Pairwise
      fun a b => a.timestamp ≤ b.timestamp)
    (hcond : 30000 ≤ now - lastP.timestamp ∨
      1/1000 ≤ |q - lastP.price| / lastP.price) :
    (lookupPair (recordPrice st pair (.fin q) now).pairs pair).getLast? =
      some ⟨now, q⟩ := by
  have hnded : ¬ (now - lastP.timestamp < 30000 ∧
      |q - lastP.price| / lastP.price < 1/1000) := by
    rcases hcond with h | h
    · exact fun hc => absurd hc.1 (not_lt.mpr h)
    · exact fun hc => absurd hc.2 (not_lt.mpr h)
  by_cases hcl : 3600000 < now - st.lastCleanup
  · by_cases hy : now - MAX_AGE_MS < lastP.timestamp
    · have hplast := dedup_sees_last_after_cleanup st.pairs now pair lastP
        hlast hy
      rw [recordPrice_cleanup_append st pair q now hq hcl
        (fun lp hlp => by
          rw [hplast] at hlp
          cases hlp
          exact hnded)]
      rw [lookupPair_setPair]
      exact capAppend_getLast? _ _
    · have hall := sorted_all_le_last _ _ hlast hsort
      have hfe : (lookupPair st.pairs pair).filter
          (fun p => now - MAX_AGE_MS < p.timestamp) = [] := by
        rw [List.filter_eq_nil_iff]
        intro a ha
        simp only [decide_eq_true_eq]
        have := hall a ha
        push_neg at hy
        omega
      have hempty : lookupPair (cleanupOldData st.pairs now) pair = [] :=
        lookupPair_cleanup_of_filter_empty st.pairs now pair hnodup hfe
      rw [recordPrice_cleanup_append st pair q now hq hcl
        (fun lp hlp => by rw [hempty] at hlp; cases hlp)]
      rw [lookupPair_setPair]
      exact capAppend_getLast? _ _
  · rw [recordPrice_no_cleanup_append st pair q now hq hcl
      (fun lp hlp => by rw [hlast] at hlp; cases hlp; exact hnded)]
    rw [lookupPair_setPair]
    exact capAppend_getLast? _ _

/-- **C5.** Deduplication and append of `recordPrice`: a call less than 30 s
after the pair's last point with a relative price change below 0.1 % leaves
the persisted storage unchanged; a call at least 30 s later or with at least
0.1 % relative change appends the point `(now, q)` as the pair's new last
point; two calls on a fresh pair inside both thresholds store exactly one
point. -/
theorem record_price_dedup_append_once :
    (∀ (st : Storage) (pair : String) (q : ℚ) (now : ℤ)
      (lastP : PricePoint),
      (lookupPair st.pairs pair).getLast? = some lastP → 0 < q →
      now - lastP.timestamp < 30000 →
      |q - lastP.price| / lastP.price < 1/1000 →
      recordPrice st pair (.fin q) now = st) ∧
    (∀ (st : Storage) (pair : String) (q : ℚ) (now : ℤ)
      (lastP : PricePoint),
      (st.pairs.map Prod.fst).Nodup →
      (lookupPair st.pairs pair).getLast? = some lastP → 0 < q →
      (lookupPair st.pairs pair).Pairwise
        (fun a b => a.timestamp ≤ b.timestamp) →
      (30000 ≤ now - lastP.timestamp ∨
        1/1000 ≤ |q - lastP.price| / lastP.price) →
      (lookupPair (recordPrice st pair (.fin q) now).pairs pair).getLast? =
        some ⟨now, q⟩) ∧
    (∀ (st : Storage) (pair : String) (q1 q2 : ℚ) (t1 t2 : ℤ),
      (st.pairs.map Prod.fst).Nodup →
      lookupPair st.pairs pair = [] → 0 < q1 → 0 < q2 →
      t2 - t1 < 30000 → |q2 - q1| / q1 < 1/1000 →
      lookupPair (recordPrice (recordPrice st pair (.fin q1) t1) pair
        (.fin q2) t2).pairs pair = [⟨t1, q1⟩]) := by
  refine ⟨recordPrice_dedup_noop, recordPrice_append_getLast, ?_⟩
  intro st pair q1 q2 t1 t2 hnodup hempty hq1 hq2 h30 hdiff
  have hfirst : lookupPair (recordPrice st pair (.fin q1) t1).pairs pair =
      [⟨t1, q1⟩] := by
    by_cases hcl : 3600000 < t1 - st.lastCleanup
    · have hcempty : lookupPair (cleanupOldData st.pairs t1) pair = [] :=
        lookupPair_cleanup_of_empty st.pairs t1 pair hnodup hempty
      rw [recordPrice_cleanup_append st pair q1 t1 hq1 hcl
        (fun lp hlp => by rw [hcempty] at hlp; cases hlp)]
      rw [lookupPair_setPair, hcempty]
      rfl
    · rw [recordPrice_no_cleanup_append st pair q1 t1 hq1 hcl
        (fun lp hlp => by rw [hempty] at hlp; cases hlp)]
      rw [lookupPair_setPair, hempty]
      rfl
  have hsecond : recordPrice (recordPrice st pair (.fin q1) t1) pair
      (.fin q2) t2 = recordPrice st pair (.fin q1) t1 := by
    apply recordPrice_dedup_noop _ _ _ _ ⟨t1, q1⟩ _ hq2 h30 hdiff
    rw [hfirst]
    rfl
  rw [hsecond, hfirst]

/-- Witness for C5: a pair with one point at time 0 price 5; a call at time
1000 with price 5 is deduplicated; the two-call scenario on a fresh pair
stores one point. -/
theorem record_price_dedup_append_once_witness :
    recordPrice ⟨[("X", [⟨0, 5⟩])], 0⟩ "X" (.fin 5) 1000 =
      ⟨[("X", [⟨0, 5⟩])], 0⟩ ∧
    lookupPair (recordPrice (recordPrice ⟨[], 0⟩ "X" (.fin 5) 100) "X"
      (.fin 5) 200).pairs "X" = [⟨100, 5⟩] :=
  ⟨record_price_dedup_append_once.1 ⟨[("X", [⟨0, 5⟩])], 0⟩ "X" 5 1000 ⟨0, 5⟩
    rfl (by norm_num) (by norm_num) (by norm_num),
   record_price_dedup_append_once.2.2 ⟨[], 0⟩ "X" 5 5 100 200
    List.nodup_nil rfl (by norm_num) (by norm_num) (by norm_num)
    (by norm_num)⟩

/-- **C9.** An invalid price — `NaN`, `±Infinity` or a non-positive finite
value — makes `recordPrice` a silent no-op: the persisted storage is returned
unchanged, before any cleanup or append. -/
theorem record_price_invalid_noop (st : Storage) (pair : String) (now : ℤ) :
    recordPrice st pair .nan now = st ∧
    recordPrice st pair .posInf now = st ∧
    recordPrice st pair .negInf now = st ∧
    (∀ q : ℚ, q ≤ 0 → recordPrice st pair (.fin q) now = st) := by
  refine ⟨rfl, rfl, rfl, ?_⟩
  intro q hq
  simp only [recordPrice]
  rw [if_pos hq]

/-- Witness for C9 at `q = 0` on a concrete storage. -/
theorem record_price_invalid_noop_witness :
    recordPrice ⟨[("X", [⟨0, 5⟩])], 0⟩ "X" (.fin 0) 99 =
      ⟨[("X", [⟨0, 5⟩])], 0⟩ :=
  (record_price_invalid_noop ⟨[("X", [⟨0, 5⟩])], 0⟩ "X" 99).2.2.2 0 le_rfl

/-- **C10.** `getPriceStats` returns `null` exactly when the pair has no
recorded points; with at least one point it returns a stats record whose
`current` field is the last recorded price. -/
theorem price_stats_none_iff (st : Storage) (pair : String) (now : ℤ) :
    (getPriceStats st pair now = none ↔ lookupPair st.pairs pair = []) ∧
    (∀ lastP, (lookupPair st.pairs pair).getLast? = some lastP →
      ∃ s, getPriceStats st pair now = some s ∧ s.current = lastP.price) := by
  constructor
  · simp only [getPriceStats]
    by_cases h : (lookupPair st.pairs pair).length = 0
    · rw [if_pos h]
      simp [List.length_eq_zero] at h
      simp [h]
    · rw [if_neg h]
      constructor
      · intro hc
        rcases hfl : (lookupPair st.pairs pair).filter
            (fun p => now - 24 * 60 * 60 * 1000 < p.timestamp) with - | ⟨a, t⟩
        · rw [hfl] at hc
          exact absurd hc (by simp)
        · rw [hfl] at hc
          exact absurd hc (by simp)
      · intro hc
        rw [hc] at h
        simp at h
  · intro lastP hl
    have hne : ¬ (lookupPair st.pairs pair).length = 0 := by
      obtain ⟨l1, heq⟩ := List.getLast?_eq_some_iff.mp hl
      rw [heq]
      simp
    simp only [getPriceStats]
    rw [if_neg hne, hl]
    cases hfl : (lookupPair st.pairs pair).filter
        (fun p => now - 24 * 60 * 60 * 1000 < p.timestamp) with
    | nil => exact ⟨_, rfl, rfl⟩
    | cons a t => exact ⟨_, rfl, rfl⟩

/-- Witness for C10: a pair with one point at price 5 yields a stats record
with `current = 5`. -/
theorem price_stats_none_iff_witness :
    ∃ s, getPriceStats ⟨[("X", [⟨0, 5⟩])], 0⟩ "X" 100 = some s ∧
      s.current = (5 : ℚ) :=
  (price_stats_none_iff ⟨[("X", [⟨0, 5⟩])], 0⟩ "X" 100).2 ⟨0, 5⟩ rfl

/-- **C8 counterexample.** At exactly one hour since the last cleanup
(`now - lastCleanup = 3600000`), with a point more than 24 hours old, an
appending `recordPrice` call does *not* purge the stale point: the cleanup
condition is strict (`>`), so "at least one hour" is not enough. -/
theorem cleanup_boundary_counterexample :
    (90000000 : ℤ) - (Storage.mk [("X", [⟨0, 1⟩])] 86400000).lastCleanup =
      3600000 ∧
    MAX_AGE_MS < (90000000 : ℤ) - (0 : ℤ) ∧
    lookupPair (recordPrice ⟨[("X", [⟨0, 1⟩])], 86400000⟩ "X" (.fin 2)
      90000000).pairs "X" = [⟨0, 1⟩, ⟨90000000, 2⟩] := by
  refine ⟨by norm_num, by norm_num [MAX_AGE_MS], by decide⟩

/-- **C8 amended.** After every `recordPrice` call each pair's stored series
stays within the 100-point cap (given it was within the cap before), an
appending call without cleanup stores exactly the last 100 points of the old
series plus the new point (oldest dropped first) and leaves other pairs
untouched; and when *strictly more than* one hour has elapsed since the last
cleanup, an appending call leaves only points younger than the 24-hour
window in every pair. -/
theorem record_price_cap_and_cleanup :
    (∀ (st : Storage) (pair : String) (price : JSPrice) (now : ℤ),
      (∀ p2, (lookupPair st.pairs p2).length ≤ MAX_DATA_POINTS) →
      ∀ p2, (lookupPair (recordPrice st pair price now).pairs p2).length ≤
        MAX_DATA_POINTS) ∧
    (∀ (st : Storage) (pair : String) (q : ℚ) (now : ℤ),
      now - st.lastCleanup ≤ 3600000 → 0 < q →
      ((lookupPair st.pairs pair).getLast? = none ∨
        ∃ lastP, (lookupPair st.pairs pair).getLast? = some lastP ∧
          ¬ (now - lastP.timestamp < 30000 ∧
             |q - lastP.price| / lastP.price < 1/1000)) →
      lookupPair (recordPrice st pair (.fin q) now).pairs pair =
        takeLast MAX_DATA_POINTS (lookupPair st.pairs pair ++ [⟨now, q⟩]) ∧
      (∀ p2, p2 ≠ pair →
        lookupPair (recordPrice st pair (.fin q) now).pairs p2 =
          lookupPair st.pairs p2)) ∧
    (∀ (st : Storage) (pair : String) (q : ℚ) (now : ℤ),
      3600000 < now - st.lastCleanup → 0 < q →
      ((lookupPair (cleanupOldData st.pairs now) pair).getLast? = none ∨
        ∃ lastP, (lookupPair (cleanupOldData st.pairs now) pair).getLast? =
            some lastP ∧
          ¬ (now - lastP.timestamp < 30000 ∧
             |q - lastP.price| / lastP.price < 1/1000)) →
      ∀ p2 pt,
        pt ∈ lookupPair (recordPrice st pair (.fin q) now).pairs p2 →
        now - pt.timestamp < MAX_AGE_MS) := by
  refine ⟨?_, ?_, ?_⟩
  · -- cap preservation
    intro st pair price now hcap p2
    cases price with
    | nan => exact hcap p2
    | posInf => exact hcap p2
    | negInf => exact hcap p2
    | fin q =>
      by_cases hq : q ≤ 0
      · simp only [recordPrice]
        rw [if_pos hq]
        exact hcap p2
      · push_neg at hq
        simp only [recordPrice]
        rw [if_neg (not_le.mpr hq)]
        by_cases hcl : 3600000 < now - st.lastCleanup
        · rw [if_pos hcl]
          split
          · exact hcap p2
          · by_cases hp2 : p2 = pair
            · subst hp2
              rw [lookupPair_setPair]
              exact capAppend_length_le _ _
                (lookupPair_cleanup_length_le st.pairs now p2)
            · rw [lookupPair_setPair_ne _ _ _ _ hp2]
              exact lookupPair_cleanup_length_le st.pairs now p2
        · rw [if_neg hcl]
          split
          · exact hcap p2
          · by_cases hp2 : p2 = pair
            · subst hp2
              rw [lookupPair_setPair]
              exact capAppend_length_le _ _ (hcap p2)
            · rw [lookupPair_setPair_ne _ _ _ _ hp2]
              exact hcap p2
  · -- no-cleanup append
    intro st pair q now hcl hq hded
    have hded2 : ∀ lastP, (lookupPair st.pairs pair).getLast? = some lastP →
        ¬ (now - lastP.timestamp < 30000 ∧
           |q - lastP.price| / lastP.price < 1/1000) := by
      intro lp hlp
      rcases hded with hnone | ⟨lastP, hsome, hn⟩
      · rw [hnone] at hlp
        cases hlp
      · rw [hsome] at hlp
        cases hlp
        exact hn
    rw [recordPrice_no_cleanup_append st pair q now hq (not_lt.mpr hcl) hded2]
    constructor
    · rw [lookupPair_setPair, capAppend_eq_takeLast]
    · intro p2 hp2
      exact lookupPair_setPair_ne _ _ _ _ hp2
  · -- cleanup purge
    intro st pair q now hcl hq hded p2 pt hmem
    have hded2 : ∀ lastP,
        (lookupPair (cleanupOldData st.pairs now) pair).getLast? =
          some lastP →
        ¬ (now - lastP.timestamp < 30000 ∧
           |q - lastP.price| / lastP.price < 1/1000) := by
      intro lp hlp
      rcases hded with hnone | ⟨lastP, hsome, hn⟩
      · rw [hnone] at hlp
        cases hlp
      · rw [hsome] at hlp
        cases hlp
        exact hn
    rw [recordPrice_cleanup_append st pair q now hq hcl hded2] at hmem
    by_cases hp2 : p2 = pair
    · subst hp2
      rw [lookupPair_setPair, capAppend_eq_takeLast] at hmem
      have hsub := takeLast_subset MAX_DATA_POINTS _ hmem
      rcases List.mem_append.mp hsub with hold | hnew
      · have := lookupPair_cleanup_mem st.pairs now p2 pt hold
        omega
      · rw [List.mem_singleton.mp hnew]
        norm_num [MAX_AGE_MS]
    · rw [lookupPair_setPair_ne _ _ _ _ hp2] at hmem
      have := lookupPair_cleanup_mem st.pairs now p2 pt hmem
      omega

/-- Witness for the amended C8: an appending call without cleanup on a pair
holding one point. -/
theorem record_price_cap_and_cleanup_witness :
    lookupPair (recordPrice ⟨[("X", [⟨0, 5⟩])], 0⟩ "X" (.fin 6)
        40000).pairs "X" =
      takeLast MAX_DATA_POINTS
        (lookupPair (Storage.mk [("X", [⟨0, 5⟩])] 0).pairs "X" ++
          [⟨40000, 6⟩]) :=
  (record_price_cap_and_cleanup.2.1 ⟨[("X", [⟨0, 5⟩])], 0⟩ "X" 6 40000
    (by norm_num) (by norm_num)
    (Or.inr ⟨⟨0, 5⟩, rfl, fun hc => by norm_num at hc⟩)).1

end Gnomo
